import Mathlib

/-!
# Verification of the Rex reactive templating runtime (src/index.js)

Shallow embedding of the reactivity core: JS values with strict-equality
semantics, the `_Dependency` subscriber bookkeeping, the `_BatchUpdater`
scheduler, `window.ref` boxed cells, the `window.reactive` wrapper and its
proxy traps, the intercepted array mutators, `_ExpressionParser.parse`,
`_processElement`, and the `r-for` count-based reconciler.

Machine integers do not occur; JS numbers relevant to the claims are
modelled as `Int` plus an explicit `nan` value (the only number whose
strict-equality behavior the claims depend on).
-/

namespace Rex

/-- JS runtime values, restricted to the shapes the claims exercise.
`obj id` is a plain (raw, unwrapped) object identity; `wrappedObj id` is the
reactive proxy wrapping the raw object `id` (a distinct JS identity). -/
inductive JSVal where
  | undef
  | nan
  | num (n : Int)
  | str (s : String)
  | bool (b : Bool)
  | obj (id : Nat)
  | wrappedObj (id : Nat)
deriving DecidableEq, Repr

/-- JS strict equality `===`: `NaN === NaN` is `false`; all other values we
model compare by identity/structure. -/
def strictEq : JSVal → JSVal → Bool
  | .nan, .nan => false
  | a, b => a == b

/-- The NaN-safe equality used by the reactive proxy set trap (line 1709):
`oldValue === value || (Number.isNaN(oldValue) && Number.isNaN(value))`. -/
def nanSafeEq (a b : JSVal) : Bool :=
  strictEq a b || (a == JSVal.nan && b == JSVal.nan)

/-- `typeof v === "object" && v !== null` for the values we model
(functions, dates, maps, sets are not in `JSVal`; both raw objects and
proxies are objects). -/
def JSVal.isObjectLike : JSVal → Bool
  | .obj _ => true
  | .wrappedObj _ => true
  | _ => false

/-- A raw (not yet wrapped) container value. -/
def JSVal.isRawObj : JSVal → Bool
  | .obj _ => true
  | _ => false

/-- JS `Set.prototype.add`: insertion-ordered, no duplicates. -/
def setAdd (s : List Nat) (x : Nat) : List Nat :=
  if x ∈ s then s else s ++ [x]

/-- Lookup in an insertion-ordered map (JS `Map.prototype.get`). -/
def mapFind {κ α : Type} [DecidableEq κ] (m : List (κ × α)) (k : κ) : Option α :=
  match m with
  | [] => none
  | (k', v) :: rest => if k' = k then some v else mapFind rest k

/-- JS `Map.prototype.set`: update in place if the key exists, else append. -/
def mapSet {κ α : Type} [DecidableEq κ] (m : List (κ × α)) (k : κ) (v : α) : List (κ × α) :=
  match m with
  | [] => [(k, v)]
  | (k', v') :: rest => if k' = k then (k', v) :: rest else (k', v') :: mapSet rest k v

/-- JS truthiness of the `variable` argument of `_Dependency` methods
(`null` and the empty string are falsy). -/
def jsTruthy : Option String → Bool
  | none => false
  | some s => s ≠ ""

/-! ## `_Dependency` (src/index.js lines 90-116) -/

/-- The `_Dependency` class: a global subscriber `Set` and a `Map` from
variable name to subscriber `Set`.  Subscribers are modelled by `Nat`
identities; `isFn` mirrors the `typeof fn === "function"` check. -/
structure Dependency where
  subscribers : List Nat
  varSubs : List (String × List Nat)
deriving DecidableEq, Repr

def Dependency.init : Dependency := ⟨[], []⟩

/-- `subscribe(fn, variable = null)` (lines 99-106): non-functions are
rejected; `fn` is added to the global set, and — when `variable` is truthy —
to the per-variable set (created on first use). -/
def Dependency.subscribe (d : Dependency) (isFn : Bool) (fn : Nat)
    (variab : Option String) : Dependency :=
  if !isFn then d
  else
    let d' : Dependency := { d with subscribers := setAdd d.subscribers fn }
    if jsTruthy variab then
      let key := variab.getD ""
      let cur := (mapFind d'.varSubs key).getD []
      { d' with varSubs := mapSet d'.varSubs key (setAdd cur fn) }
    else d'

/-- The target set iterated by `notify(variable = null)` (lines 111-115):
the per-variable set when `variable` is truthy and present in the map,
otherwise the global subscriber set.  Each member is passed to
`_BatchUpdater.add` in iteration order. -/
def Dependency.notifyTargets (d : Dependency) (variab : Option String) : List Nat :=
  if jsTruthy variab then
    match mapFind d.varSubs (variab.getD "") with
    | some s => s
    | none => d.subscribers
  else d.subscribers

/-- Operations a client can perform on one dependency node. -/
inductive DepOp where
  | sub (isFn : Bool) (fn : Nat) (variab : Option String)
  | ntf (variab : Option String)
deriving DecidableEq, Repr

/-- `notify` reads the sets but never modifies them; `subscribe` as above. -/
def Dependency.applyOp (d : Dependency) : DepOp → Dependency
  | .sub isFn fn v => d.subscribe isFn fn v
  | .ntf _ => d

def Dependency.applyOps (d : Dependency) (ops : List DepOp) : Dependency :=
  ops.foldl Dependency.applyOp d

/-! ## `_BatchUpdater` (src/index.js lines 37-82) -/

/-- Scheduler state: the pending queue (a JS `Set`, insertion-ordered and
duplicate-free), the `_isUpdating` flag, whether a `requestAnimationFrame`
callback is outstanding, and a log of evaluator executions (appended only
by the flush, since `add` never runs an evaluator). -/
structure Sched where
  queue : List Nat
  isUpdating : Bool
  rafPending : Bool
  ran : List Nat
deriving DecidableEq, Repr

def Sched.init : Sched := ⟨[], false, false, []⟩

/-- `add(fn)` (lines 46-50): reject non-functions, insert into the queue
set, and — only when `_isUpdating` is false — call `_scheduleUpdate`, which
sets `_isUpdating = true` and schedules a `requestAnimationFrame` callback. -/
def Sched.add (s : Sched) (isFn : Bool) (fn : Nat) : Sched :=
  if !isFn then s
  else
    let s' : Sched := { s with queue := setAdd s.queue fn }
    if !s'.isUpdating then { s' with isUpdating := true, rafPending := true }
    else s'

/-- `_executeQueue` (lines 65-81), run when the scheduled animation-frame
callback fires: snapshot the queue, clear the live queue, run every
snapshotted evaluator (errors are caught, so all of them run), and finally
reset `_isUpdating`.  `behavior fn` is the list of evaluators that running
`fn` enqueues via `_BatchUpdater.add` (e.g. through `dep.notify`); while the
flush runs, `_isUpdating` is still `true`, so those adds do not schedule. -/
def Sched.flush (s : Sched) (behavior : Nat → List Nat) : Sched :=
  let snapshot := s.queue
  let s1 : Sched := { s with queue := [], rafPending := false }
  let s2 := snapshot.foldl
    (fun st fn =>
      let st' : Sched := { st with ran := st.ran ++ [fn] }
      (behavior fn).foldl (fun st'' g => st''.add true g) st')
    s1
  { s2 with isUpdating := false }

/-- Reachable scheduler states: from the initial state, by any `add` of a
function, or by the outstanding animation-frame callback firing. -/
inductive Reach (behavior : Nat → List Nat) : Sched → Prop where
  | init : Reach behavior Sched.init
  | add (s : Sched) (fn : Nat) : Reach behavior s → Reach behavior (s.add true fn)
  | flush (s : Sched) : Reach behavior s → s.rafPending = true →
      Reach behavior (s.flush behavior)

/-! ## `window.ref` (src/index.js lines 1583-1605) -/

/-- A boxed cell: the stored value and its dependency node. -/
structure RefCell where
  value : JSVal
  dep : Dependency
deriving DecidableEq, Repr

/-- The `value` setter (lines 1596-1601): `if (value !== newValue) { value =
newValue; dep.notify(); }` — plain strict inequality, no NaN special case.
`notify()` passes every global subscriber to `_BatchUpdater.add`; nothing is
executed synchronously. -/
def refSet (c : RefCell) (s : Sched) (newValue : JSVal) : RefCell × Sched :=
  if strictEq c.value newValue then (c, s)
  else
    let c' : RefCell := { c with value := newValue }
    let s' := (c'.dep.notifyTargets none).foldl (fun st fn => st.add true fn) s
    (c', s')

/-- The `value` getter (lines 1589-1593): while an evaluator is active the
top of the active-function stack is subscribed (unscoped) to the cell. -/
def refGet (c : RefCell) (activeFns : List Nat) : RefCell × JSVal :=
  match activeFns.getLast? with
  | some fn => ({ c with dep := c.dep.subscribe true fn none }, c.value)
  | none => (c, c.value)

/-! ## `window.reactive` wrapping (src/index.js lines 1614-1760)

One underlying container is modelled by a `WrapState`; the values that can
refer to it are its raw object and its proxy.  `Object.defineProperty(proxy,
"__isReactiveProxy", ...)` at line 1755 goes through the proxy, whose
handler has no `defineProperty` trap, so the property is defined on the
*raw target* — this is why `proxyMark` lives in the raw object's state. -/

/-- Mutable state attached to one raw container object. -/
structure WrapState where
  /-- own property `__isReactive` on the raw object (line 1633). -/
  isReactive : Bool
  /-- own property `__isReactiveProxy`, defined at line 1755 through the
  proxy's (absent) `defineProperty` trap and therefore landing on the raw
  target. Reading it on the proxy also forwards to this flag (line 1682). -/
  proxyMark : Bool
  /-- `_depsMap.get(raw).__proxy` has been stored (line 1756). -/
  depProxy : Bool
deriving DecidableEq, Repr

/-- The argument passed to `reactive`: the raw object, its proxy, or a
value of unsupported type (primitive, `null`, `Date`, `RegExp`, function,
`Map`, `Set` — the filter at line 1616). -/
inductive RVal where
  | raw
  | proxy
  | nonObj
deriving DecidableEq, Repr

/-- `window.reactive(target)`, specialised to one underlying container.
Returns `none` only on the branch (line 1623 reached with the proxy as
argument) where `_depsMap.get(target)` is `undefined` — keyed by the raw
object, not the proxy — so `.__proxy` throws a `TypeError`; that state is
unreachable from a fresh object, because a proxy value only exists after a
wrap that set `proxyMark`. -/
def reactiveFn (s : WrapState) : RVal → Option (WrapState × RVal)
  | .nonObj => some (s, .nonObj)
  | .raw =>
    if s.proxyMark then some (s, .raw)
    else if s.isReactive then some (s, if s.depProxy then .proxy else .raw)
    else some ({ isReactive := true, proxyMark := true, depProxy := true }, .proxy)
  | .proxy =>
    if s.proxyMark then some (s, .proxy)
    else if s.isReactive then none
    else some ({ isReactive := true, proxyMark := true, depProxy := true }, .proxy)

/-- A fresh, never-wrapped container. -/
def freshWrapState : WrapState := ⟨false, false, false⟩

/-! ## Reactive proxy traps for record targets (src/index.js lines 1699-1751)

State of one wrapped record: its own data properties (markers excluded —
they are branched out of both traps before any store access), the
`_notificationDisabled` flag of its dependency node, and the log of keys
passed to `dep.notify`, in call order. -/

structure RecState where
  fields : List (String × JSVal)
  disabled : Bool
  log : List String
deriving DecidableEq, Repr

/-- The three internal marker properties protected by the traps. -/
def markerProps : List String := ["__isReactive", "__raw", "__isReactiveProxy"]

/-- `reactive(value)` applied to a nested value being stored by the set
trap (line 1722): wraps a raw container into its proxy, passes anything
else (including an existing proxy, by idempotence on proxies) through. -/
def wrapVal : JSVal → JSVal
  | .obj id => .wrappedObj id
  | v => v

/-- JS `Map.prototype.delete` analogue for the property list. -/
def mapDelete {κ α : Type} [DecidableEq κ] (m : List (κ × α)) (k : κ) : List (κ × α) :=
  m.filter (fun p => p.1 ≠ k)

/-- The proxy `set` trap (lines 1699-1732) for a non-array target (the
array-length branch at 1712-1719 is array-only).  Returns the updated state
and the boolean result reported to the caller. -/
def setTrap (s : RecState) (prop : String) (v : JSVal) : RecState × Bool :=
  if prop ∈ markerProps then (s, true)
  else
    let oldValue := (mapFind s.fields prop).getD .undef
    if nanSafeEq oldValue v then (s, true)
    else
      let reactiveValue := if v.isObjectLike then wrapVal v else v
      let s1 : RecState := { s with fields := mapSet s.fields prop reactiveValue }
      let s2 := if !s1.disabled then { s1 with log := s1.log ++ [prop] } else s1
      (s2, true)

/-- The proxy `deleteProperty` trap (lines 1734-1751) for a non-array
target. -/
def deleteTrap (s : RecState) (prop : String) : RecState × Bool :=
  if prop ∈ markerProps then (s, false)
  else
    let hadProp := (mapFind s.fields prop).isSome
    let s1 : RecState := { s with fields := mapDelete s.fields prop }
    let deleteResult := true
    let s2 := if hadProp && deleteResult && !s1.disabled then
        { s1 with log := s1.log ++ [prop] }
      else s1
    (s2, deleteResult)

/-! ## Intercepted array mutators (src/index.js lines 1637-1677)

State of one wrapped array: its elements (a JS hole left by `delete` is
modelled as `undef`, matching what reads observe), the
`_notificationDisabled` flag, and the `dep.notify` log. -/

structure ArrState where
  items : List JSVal
  disabled : Bool
  log : List String
deriving DecidableEq, Repr

/-- `Reflect.set(target, i, v)` for a numeric index: JS auto-extends the
array, padding skipped slots. -/
def listSetPad (l : List JSVal) (i : Nat) (v : JSVal) : List JSVal :=
  if i < l.length then l.set i v
  else l ++ List.replicate (i - l.length) .undef ++ [v]

/-- The proxy `set` trap for a numeric index `i` on an array target
(lines 1699-1731, numeric-prop path): NaN-safe equality short-circuit, wrap
the stored value, write, then notify `index:i` — suppressed while
`_notificationDisabled` holds. -/
def arraySetIdx (s : ArrState) (i : Nat) (v : JSVal) : ArrState :=
  let oldValue := s.items.getD i .undef
  if nanSafeEq oldValue v then s
  else
    let reactiveValue := if v.isObjectLike then wrapVal v else v
    let s1 : ArrState := { s with items := listSetPad s.items i reactiveValue }
    if !s1.disabled then { s1 with log := s1.log ++ ["index:" ++ toString i] }
    else s1

/-- The proxy `set` trap for `prop = "length"` on an array target
(lines 1709-1729): equality short-circuit; on shrink, notify every removed
index — this loop (line 1717) is NOT guarded by `_notificationDisabled`;
then write the length and (guarded) notify `"length"`. -/
def arraySetLen (s : ArrState) (v : Nat) : ArrState :=
  let oldLength := s.items.length
  if v = oldLength then s
  else
    let s1 : ArrState :=
      if v < oldLength then
        { s with log := s.log ++
            ((List.range (oldLength - v)).map (fun j => "index:" ++ toString (v + j))) }
      else s
    let s2 : ArrState := { s1 with items :=
        if v ≤ s1.items.length then s1.items.take v
        else s1.items ++ List.replicate (v - s1.items.length) .undef }
    if !s2.disabled then { s2 with log := s2.log ++ ["length"] } else s2

/-- The proxy `deleteProperty` trap for a numeric index (lines 1734-1750):
deleting leaves a hole (length unchanged); the notify is guarded by
`_notificationDisabled` (line 1745). -/
def arrayDelIdx (s : ArrState) (i : Nat) : ArrState :=
  let hadProp := i < s.items.length
  let s1 : ArrState :=
    { s with items := if i < s.items.length then s.items.set i .undef else s.items }
  if hadProp && !s1.disabled then { s1 with log := s1.log ++ ["index:" ++ toString i] }
  else s1

/-- One trap-level write performed internally by a native `Array.prototype`
method running with the proxy as `this`. -/
inductive ArrOp where
  | setIdx (i : Nat) (v : JSVal)
  | setLen (n : Nat)
  | delIdx (i : Nat)
deriving DecidableEq, Repr

def applyArrOp (s : ArrState) : ArrOp → ArrState
  | .setIdx i v => arraySetIdx s i v
  | .setLen n => arraySetLen s n
  | .delIdx i => arrayDelIdx s i

/-- The interceptor installed on `arrayProxyProto` for every mutating
method (lines 1642-1665): save and set `_notificationDisabled`, run the
native method (whose element/length writes all go through the traps, as
`this` is the proxy), wrap newly introduced container items (line 1652 —
the stored values were already wrapped by the set trap, so this only marks
the raw items and changes none of the state modelled here), restore the
flag, and emit a single coalesced `notify("array:mutate")` when not nested. -/
def interceptedRun (s : ArrState) (ops : List ArrOp) : ArrState :=
  let saved := s.disabled
  let s1 : ArrState := { s with disabled := true }
  let s2 := ops.foldl applyArrOp s1
  let s3 : ArrState := { s2 with disabled := saved }
  if !s3.disabled then { s3 with log := s3.log ++ ["array:mutate"] } else s3

/-- The sequential element writes of `Array.prototype.push`: argument `k`
is written at index `base + k`. -/
def pushWrites (base : Nat) : List JSVal → List ArrOp
  | [] => []
  | v :: rest => ArrOp.setIdx base v :: pushWrites (base + 1) rest

/-- The trap-level writes `Array.prototype.push.apply(proxy, args)`
performs on an array of length `len`: one indexed set per argument, then a
final length set (a no-op by equality when the index writes already
extended the length). -/
def pushOps (len : Nat) (args : List JSVal) : List ArrOp :=
  pushWrites len args ++ [ArrOp.setLen (len + args.length)]

/-- `proxy.push(...args)` through the interceptor. -/
def pushOp (s : ArrState) (args : List JSVal) : ArrState :=
  interceptedRun s (pushOps s.items.length args)

/-- The trap-level writes `Array.prototype.pop.apply(proxy)` performs on an
array of length `len > 0`: delete the last index (deleting does not change
a JS array's length), then shrink the length by one. On an empty array pop
only re-writes length `0` (a no-op by equality). -/
def popOps (len : Nat) : List ArrOp :=
  match len with
  | 0 => [ArrOp.setLen 0]
  | n + 1 => [ArrOp.delIdx n, ArrOp.setLen n]

/-- `proxy.pop()` through the interceptor. -/
def popOp (s : ArrState) : ArrState :=
  interceptedRun s (popOps s.items.length)

/-! ## `_ExpressionParser` (src/index.js lines 123-176) -/

/-- Result of evaluating `new Function(...keys, "return " ++ expr ++ ";")`
applied to the scope values: either a plain value or a `ref` object (one
with `__isRef: true`, whose current `.value` is recorded). The evaluator
itself is a platform builtin executing arbitrary JS, so it enters the model
as an oracle parameter; `Except Unit` marks any thrown error (syntax error
at construction or `ReferenceError` etc. at call time). -/
inductive EvalRes where
  | plain (v : JSVal)
  | ref (v : JSVal)
deriving DecidableEq, Repr

/-- JS whitespace trimming, restricted to the common ASCII whitespace
characters (source texts contain no exotic whitespace). -/
def isWsChar (c : Char) : Bool := c = ' ' || c = '\t' || c = '\n' || c = '\r'

def trimList (l : List Char) : List Char :=
  ((l.dropWhile isWsChar).reverse.dropWhile isWsChar).reverse

/-- `String.prototype.trim()`. -/
def jsTrim (s : String) : String := ⟨trimList s.toList⟩

def dropLast2 (l : List Char) : List Char := (l.reverse.drop 2).reverse

/-- `expr.startsWith("\x7b\x7b") && expr.endsWith("\x7d\x7d")` — the
delimiter test of line 146. -/
def delimWrapped (expr : String) : Bool :=
  match expr.toList with
  | '\x7b' :: '\x7b' :: _ =>
    match expr.toList.reverse with
    | '\x7d' :: '\x7d' :: _ => true
    | _ => false
  | _ => false

/-- Delimiter stripping inside `parse` (line 146): when the text both
starts with the open and ends with the close delimiter, the binding `expr`
is reassigned to `expr.slice(2, -2).trim()`. -/
def stripDelims (expr : String) : String :=
  if delimWrapped expr then ⟨trimList (dropLast2 (expr.toList.drop 2))⟩
  else expr

/-- What `parse` returns: a value (the evaluation result, ref-unwrapped at
line 157) or — on the catch path at lines 158-161, after logging — the
current value of the `expr` binding, i.e. the possibly stripped-and-trimmed
text. -/
inductive ParseOut where
  | val (v : JSVal)
  | txt (s : String)
deriving DecidableEq, Repr

namespace ExpressionParser

/-- `_ExpressionParser.parse(expr, scope, deps)` (lines 134-162) for string
input.  Dependency collection (lines 139-143) only mutates `deps` and
cannot throw, so it does not affect the returned value and is modelled
separately by `collectDeps`. -/
def parse (evalFn : String → Except Unit EvalRes) (expr : String) : ParseOut :=
  let expr1 := stripDelims expr
  match evalFn expr1 with
  | .ok (.plain v) => .val v
  | .ok (.ref v) => .val v
  | .error _ => .txt expr1

/-- The root-identifier dependency collection of `parse` (lines 139-143):
for each matched variable path, its leading segment is added unless it is
in the globals allow-list or already collected.  The regex matching is a
platform builtin; the match list enters as input. -/
def collectDeps (globals : List String) (vars : List String)
    (deps : List String) : List String :=
  vars.foldl
    (fun acc v =>
      let rootVar := ((v.splitOn ".").headD "")
      if rootVar ≠ "" && rootVar ∉ globals && rootVar ∉ acc then acc ++ [rootVar]
      else acc)
    deps

/-- A text split against `_INTERPOLATION_REGEX`: literal runs and the inner
group of each `\x7b\x7b...\x7d\x7d` occurrence (the group matches `[^\x7d]+?`,
so it is non-empty and contains no closing brace). -/
inductive TextSeg where
  | lit (s : String)
  | interp (inner : String)
deriving DecidableEq, Repr

/-- JS string coercion of a replacement value. -/
def jsToString : JSVal → String
  | .undef => "undefined"
  | .nan => "NaN"
  | .num n => toString n
  | .str s => s
  | .bool b => if b then "true" else "false"
  | .obj _ => "[object Object]"
  | .wrappedObj _ => "[object Object]"

def outToString : ParseOut → String
  | .val v => jsToString v
  | .txt s => s

/-- `parseText` (lines 172-175): replace every interpolation occurrence by
the string form of `parse` on its trimmed inner expression. -/
def parseText (evalFn : String → Except Unit EvalRes) (segs : List TextSeg) : String :=
  segs.foldl
    (fun acc seg =>
      acc ++ match seg with
        | .lit s => s
        | .interp inner => outToString (parse evalFn (jsTrim inner)))
    ""

end ExpressionParser

/-! ## `_processElement` (src/index.js lines 304-344) -/

/-- The two per-node flags involved in the reprocessing guard: the property
the guard at line 306 actually reads is `__processedcessed` (a misspelling
that no line of the repository ever assigns), while line 307 — and the
clearing sites at lines 559-560 and 705-706 — use `__processed`. -/
structure ElemFlags where
  processedcessed : Bool
  processed : Bool
deriving DecidableEq, Repr

/-- One node's observable processing state: its flags and how many times
the body past the guard has run (one full processing pass each time:
building/running the update closure, text-node handling, child recursion). -/
structure ProcState where
  flags : ElemFlags
  passes : Nat
deriving DecidableEq, Repr

/-- `_processElement(el, scope)` restricted to one node (lines 306-307 plus
the body): return early when `el["__processedcessed"]` is truthy, otherwise
set `el.__processed = true` and perform a full processing pass. -/
def processElement (s : ProcState) : ProcState :=
  if s.flags.processedcessed then s
  else { flags := { s.flags with processed := true }, passes := s.passes + 1 }

/-- A freshly created element: neither property exists yet. -/
def freshElem : ProcState := ⟨⟨false, false⟩, 0⟩

/-! ## `r-for` count-based reconciliation (src/index.js lines 498-627) -/

/-- One `nodeCache` entry: the identities of the cached top-level DOM nodes
(in order), the identity of the reactive item scope object, and the current
value of the bound index field `itemScope[indexKey]`. -/
structure ForEntry where
  nodes : List Nat
  scopeId : Nat
  scopeIndex : Nat
deriving DecidableEq, Repr

/-- The directive instance's state across updates: the number of top-level
nodes one template instance produces, the `nodeCache` map (insertion
order), `prevKeys`, and a fresh-identity counter for newly built nodes and
scopes. -/
structure ForState where
  templateSize : Nat
  cache : List (Nat × ForEntry)
  prevKeys : List Nat
  fresh : Nat
deriving DecidableEq, Repr

/-- `parseInt(x, 10)` on our values (a platform builtin): `none` models a
`NaN` result.  Strings are scanned — after trimming whitespace — for an
optional sign followed by leading decimal digits, ignoring any trailing
garbage.  `digitsValue` folds the leading digit run into a number. -/
def digitsValue : List Char → Nat → Nat
  | [], acc => acc
  | c :: cs, acc =>
    if c.isDigit then digitsValue cs (acc * 10 + (c.toNat - 48))
    else acc

def hasLeadingDigit : List Char → Bool
  | [] => false
  | c :: _ => c.isDigit

/-- `parseInt(s, 10)` for strings. -/
def jsParseIntStr (s : String) : Option Int :=
  let cs := s.toList.dropWhile isWsChar
  match cs with
  | '-' :: rest =>
    if hasLeadingDigit rest then some (-(digitsValue rest 0 : Int)) else none
  | '+' :: rest =>
    if hasLeadingDigit rest then some ((digitsValue rest 0 : Int)) else none
  | _ =>
    if hasLeadingDigit cs then some ((digitsValue cs 0 : Int)) else none

/-- `parseInt(v, 10)` on a JS value. -/
def jsParseInt : JSVal → Option Int
  | .num n => some n
  | .str s => jsParseIntStr s
  | .bool _ => none
  | .undef => none
  | .nan => none
  | .obj _ => none
  | .wrappedObj _ => none

/-- `count = Math.max(0, parseInt(parsedCount, 10) || 0)` (line 533): a NaN
parse yields 0 (`NaN || 0`), and negatives are clamped to 0. -/
def forCount (parsed : JSVal) : Nat :=
  match jsParseInt parsed with
  | none => 0
  | some n => n.toNat

/-- The per-key loop of `update` (lines 545-592), processing `keys` in
order and threading the cache, the fresh-identity counter and the fragment
being assembled.  Reuse (lines 551-565): assign the index field of the
cached item scope and move the cached nodes (same identities) into the
fragment.  Miss (lines 567-589): build `templateSize` fresh nodes and a
fresh item scope, insert the entry into the cache (`Map.set` appends new
keys), and append the new nodes. -/
def processKeys (tsize : Nat) :
    List Nat → List (Nat × ForEntry) → Nat → List (Nat × ForEntry) × Nat × List Nat
  | [], cache, fresh => (cache, fresh, [])
  | k :: ks, cache, fresh =>
    match mapFind cache k with
    | some e =>
      let e' : ForEntry := { e with scopeIndex := k }
      let cache' := mapSet cache k e'
      let rest := processKeys tsize ks cache' fresh
      (rest.1, rest.2.1, e'.nodes ++ rest.2.2)
    | none =>
      let nodes := (List.range tsize).map (fresh + ·)
      let e : ForEntry := ⟨nodes, fresh + tsize, k⟩
      let cache' := cache ++ [(k, e)]
      let rest := processKeys tsize ks cache' (fresh + tsize + 1)
      (rest.1, rest.2.1, nodes ++ rest.2.2)

/-- The key list `1..n` built at line 540:
`Array.from({length: count}, (_, i) => i + 1)`. -/
def kr (n : Nat) : List Nat := (List.range n).map (· + 1)

/-- The cleanup predicate of line 595: an entry is deleted exactly when its
key was in `prevKeys` and is not in the current key set. -/
def forKeep (prevKeys currKeys : List Nat) (k : Nat) : Bool :=
  !(k ∈ prevKeys && k ∉ currKeys)

/-- One run of the `r-for` `update` closure (lines 528-601) given the value
`parsed` produced by `_ExpressionParser.parse` on the count expression:
compute the clamped count, process keys `1..N` in order, delete cache
entries whose key was in `prevKeys` but not in the new key set
(line 595), record the new key set, and replace the container content with
the assembled fragment (returned as the ordered list of node identities). -/
def forUpdate (s : ForState) (parsed : JSVal) : ForState × List Nat :=
  let count := forCount parsed
  let currKeys := kr count
  let res := processKeys s.templateSize currKeys s.cache s.fresh
  let cache1 := res.1
  let cache2 := cache1.filter (fun p => forKeep s.prevKeys currKeys p.1)
  (⟨s.templateSize, cache2, currKeys, res.2.1⟩, res.2.2)

/-- A well-formed directive state: the cache's key list and `prevKeys` are
both exactly `1..M` for some `M` — `forInit` satisfies this with `M = 0`,
and `forUpdate` preserves it (proved below). -/
def ForState.wf (s : ForState) : Prop :=
  ∃ M, s.prevKeys = kr M ∧ s.cache.map Prod.fst = kr M

/-- The union-superset property of a dependency node: every member of
every per-variable subscriber subset is in the global subscriber set. -/
def depInv (d : Dependency) : Prop :=
  ∀ p ∈ d.varSubs, ∀ fn ∈ p.2, fn ∈ d.subscribers

/-- Folding `_BatchUpdater.add` over a list of functions (what
`dep.notify` does with its target set). -/
def enqueueAll (s : Sched) (l : List Nat) : Sched :=
  l.foldl (fun st fn => st.add true fn) s

/-- The directive's state just after registration (lines 524-525). -/
def forInit (tsize : Nat) : ForState := ⟨tsize, [], [], 0⟩

/-! ## `_registerDirective` (src/index.js lines 352-355) -/

/-- `_registerDirective(name, handler)`: a non-callable handler makes it
`throw new Error("指令处理器必须是函数: " + name)` — modelled as
`Except.error` carrying an English rendering of that message — while a
callable handler is stored in the `_directives` table. -/
def registerDirective (directives : List (String × Nat)) (name : String)
    (handlerIsFunction : Bool) (handler : Nat) :
    Except String (List (String × Nat)) :=
  if !handlerIsFunction then
    .error ("directive handler must be a function: " ++ name)
  else .ok (mapSet directives name handler)

/-! ## Helper lemmas -/

theorem mem_setAdd_self (s : List Nat) (x : Nat) : x ∈ setAdd s x := by
  unfold setAdd
  by_cases h : x ∈ s <;> simp [h]

theorem mem_setAdd_of_mem (s : List Nat) (x y : Nat) (h : y ∈ s) : y ∈ setAdd s x := by
  unfold setAdd
  by_cases hx : x ∈ s <;> simp [hx, h]

theorem mem_setAdd_elim (s : List Nat) (x y : Nat) (h : y ∈ setAdd s x) :
    y ∈ s ∨ y = x := by
  unfold setAdd at h
  by_cases hx : x ∈ s
  · rw [if_pos hx] at h
    exact Or.inl h
  · rw [if_neg hx, List.mem_append, List.mem_singleton] at h
    exact h

theorem setAdd_nodup (s : List Nat) (x : Nat) (h : s.Nodup) : (setAdd s x).Nodup := by
  unfold setAdd
  by_cases hx : x ∈ s
  · rw [if_pos hx]
    exact h
  · rw [if_neg hx]
    refine List.Nodup.append h (List.nodup_singleton x) ?_
    intro a ha hax
    rw [List.mem_singleton] at hax
    subst hax
    exact hx ha

theorem mapFind_mem (m : List (String × List Nat)) (k : String) (v : List Nat)
    (h : mapFind m k = some v) : (k, v) ∈ m := by
  induction m with
  | nil => simp [mapFind] at h
  | cons p rest ih =>
    obtain ⟨a, b⟩ := p
    rw [show mapFind ((a, b) :: rest) k = if a = k then some b else mapFind rest k from rfl] at h
    by_cases hk : a = k
    · rw [if_pos hk] at h
      subst hk
      rw [Option.some_inj] at h
      subst h
      exact List.mem_cons_self _ _
    · rw [if_neg hk] at h
      exact List.mem_cons_of_mem _ (ih h)

theorem mem_mapSet (m : List (String × List Nat)) (k : String) (v : List Nat)
    (p : String × List Nat) (hp : p ∈ mapSet m k v) : p = (k, v) ∨ p ∈ m := by
  induction m with
  | nil =>
    rw [show mapSet ([] : List (String × List Nat)) k v = [(k, v)] from rfl,
      List.mem_singleton] at hp
    exact Or.inl hp
  | cons q rest ih =>
    obtain ⟨a, b⟩ := q
    rw [show mapSet ((a, b) :: rest) k v =
        if a = k then (a, v) :: rest else (a, b) :: mapSet rest k v from rfl] at hp
    by_cases hk : a = k
    · rw [if_pos hk, List.mem_cons] at hp
      rcases hp with h | h
      · exact Or.inl (by rw [h, hk])
      · exact Or.inr (List.mem_cons_of_mem _ h)
    · rw [if_neg hk, List.mem_cons] at hp
      rcases hp with h | h
      · exact Or.inr (by rw [h]; exact List.mem_cons_self _ _)
      · rcases ih h with h' | h'
        · exact Or.inl h'
        · exact Or.inr (List.mem_cons_of_mem _ h')

theorem depInv_subscribe (d : Dependency) (isFn : Bool) (fn : Nat) (v : Option String)
    (h : depInv d) : depInv (d.subscribe isFn fn v) := by
  cases isFn with
  | false => exact h
  | true =>
    show depInv
      (if jsTruthy v then
        { subscribers := setAdd d.subscribers fn,
          varSubs := mapSet d.varSubs (v.getD "")
            (setAdd ((mapFind d.varSubs (v.getD "")).getD []) fn) }
       else { d with subscribers := setAdd d.subscribers fn })
    by_cases ht : jsTruthy v
    · rw [if_pos ht]
      intro p hp g hg
      rcases mem_mapSet _ _ _ p hp with hpe | hpm
      · subst hpe
        rcases mem_setAdd_elim _ _ _ hg with hgc | hge
        · cases hm : mapFind d.varSubs (v.getD "") with
          | none => rw [hm] at hgc; simp at hgc
          | some s0 =>
            rw [hm] at hgc
            have := h (v.getD "", s0) (mapFind_mem _ _ _ hm) g hgc
            exact mem_setAdd_of_mem _ _ _ this
        · subst hge
          exact mem_setAdd_self _ _
      · exact mem_setAdd_of_mem _ _ _ (h p hpm g hg)
    · rw [if_neg ht]
      intro p hp g hg
      exact mem_setAdd_of_mem _ _ _ (h p hp g hg)

theorem depInv_applyOp (d : Dependency) (op : DepOp) (h : depInv d) :
    depInv (d.applyOp op) := by
  cases op with
  | sub isFn fn v => exact depInv_subscribe d isFn fn v h
  | ntf _ => exact h

theorem depInv_applyOps (ops : List DepOp) (d : Dependency) (h : depInv d) :
    depInv (d.applyOps ops) := by
  induction ops generalizing d with
  | nil => simpa [Dependency.applyOps]
  | cons op rest ih =>
    have : Dependency.applyOps d (op :: rest) = Dependency.applyOps (d.applyOp op) rest := rfl
    rw [this]
    exact ih _ (depInv_applyOp d op h)

theorem depInv_init : depInv Dependency.init := by
  intro p hp
  simp [Dependency.init] at hp

/-! ## Claims -/

/-- Claim C5: for every dependency node, after any sequence of subscribe
and notify operations starting from a fresh node, the global subscriber set
contains every member of every per-key subscriber subset (it is a superset
of their union). -/
theorem C5_dependency_superset_invariant (ops : List DepOp)
    (p : String × List Nat) (hp : p ∈ (Dependency.applyOps Dependency.init ops).varSubs)
    (fn : Nat) (hfn : fn ∈ p.2) :
    fn ∈ (Dependency.applyOps Dependency.init ops).subscribers :=
  depInv_applyOps ops Dependency.init depInv_init p hp fn hfn

/-- Witness for C5 at a concrete operation sequence: after subscribing
evaluator `7` under key `"x"` and notifying, `7` is in the global set. -/
theorem C5_dependency_superset_invariant_witness :
    7 ∈ (Dependency.applyOps Dependency.init
      [DepOp.sub true 7 (some "x"), DepOp.ntf (some "x")]).subscribers :=
  C5_dependency_superset_invariant
    [DepOp.sub true 7 (some "x"), DepOp.ntf (some "x")]
    ("x", [7]) (by decide) 7 (by decide)

/-- Claim C1 counterexample: the claim asserts `set` treats NaN as equal to
NaN (no store, no notification).  The setter uses plain `!==`, for which
`NaN !== NaN` holds, so setting `NaN` on a cell whose current value is
`NaN` notifies: with subscriber `5`, the batch queue afterwards is `[5]`,
not `[]`. -/
theorem C1_set_nan_notifies_counterexample :
    (refSet ⟨.nan, ⟨[5], []⟩⟩ Sched.init .nan).2.queue = [5] ∧
    (refSet ⟨.nan, ⟨[5], []⟩⟩ Sched.init .nan).2 ≠ Sched.init := by
  decide

theorem addFn_ran (s : Sched) (fn : Nat) : (s.add true fn).ran = s.ran := by
  unfold Sched.add
  by_cases h : s.isUpdating <;> simp [h]

theorem addFn_queue (s : Sched) (fn : Nat) : (s.add true fn).queue = setAdd s.queue fn := by
  unfold Sched.add
  by_cases h : s.isUpdating <;> simp [h]

theorem enqueueAll_ran (l : List Nat) (s : Sched) : (enqueueAll s l).ran = s.ran := by
  induction l generalizing s with
  | nil => rfl
  | cons fn rest ih =>
    show (enqueueAll (s.add true fn) rest).ran = s.ran
    rw [ih, addFn_ran]

theorem enqueueAll_queue (l : List Nat) (s : Sched) :
    (enqueueAll s l).queue = l.foldl setAdd s.queue := by
  induction l generalizing s with
  | nil => rfl
  | cons fn rest ih =>
    show (enqueueAll (s.add true fn) rest).queue = _
    rw [ih, addFn_queue]
    rfl

theorem foldl_setAdd_nodup (l : List Nat) (q : List Nat) (h : q.Nodup) :
    (l.foldl setAdd q).Nodup := by
  induction l generalizing q with
  | nil => simpa
  | cons x rest ih => exact ih _ (setAdd_nodup _ _ h)

theorem mem_foldl_setAdd_of_mem_init (l : List Nat) (q : List Nat) (x : Nat) (h : x ∈ q) :
    x ∈ l.foldl setAdd q := by
  induction l generalizing q with
  | nil => simpa using h
  | cons y rest ih => exact ih _ (mem_setAdd_of_mem _ _ _ h)

theorem mem_foldl_setAdd_of_mem_list (l : List Nat) (q : List Nat) (x : Nat) (h : x ∈ l) :
    x ∈ l.foldl setAdd q := by
  induction l generalizing q with
  | nil => simp at h
  | cons y rest ih =>
    rcases List.mem_cons.mp h with he | hm
    · subst he
      exact mem_foldl_setAdd_of_mem_init rest _ x (mem_setAdd_self q x)
    · exact ih _ hm

/-- Claim C1 amended: `set(v)` is a no-op exactly when `v` is strictly
equal (`===`) to the current value — NaN is treated as *different* from
NaN; on a differing value it stores `v`, enqueues every distinct subscriber
exactly once in the batch queue, and executes no subscriber synchronously
(the execution log is untouched by `set`). -/
theorem refSet_eq_of_ne (c : RefCell) (s : Sched) (v : JSVal)
    (h : strictEq c.value v = false) :
    refSet c s v = ({ c with value := v }, enqueueAll s c.dep.subscribers) := by
  unfold refSet
  rw [h]
  rfl

theorem C1_refSet_amended (c : RefCell) (s : Sched) (v : JSVal)
    (hq : s.queue.Nodup) :
    (strictEq c.value v = true → refSet c s v = (c, s)) ∧
    (strictEq c.value v = false →
      (refSet c s v).1.value = v ∧
      (refSet c s v).1.dep = c.dep ∧
      (∀ fn ∈ c.dep.subscribers, ((refSet c s v).2.queue).count fn = 1) ∧
      (refSet c s v).2.ran = s.ran) := by
  constructor
  · intro h
    unfold refSet
    rw [h]
    rfl
  · intro h
    rw [refSet_eq_of_ne c s v h]
    refine ⟨rfl, rfl, ?_, ?_⟩
    · intro fn hfn
      have hq' : ((enqueueAll s c.dep.subscribers).queue).Nodup := by
        rw [enqueueAll_queue]
        exact foldl_setAdd_nodup _ _ hq
      have hmem : fn ∈ (enqueueAll s c.dep.subscribers).queue := by
        rw [enqueueAll_queue]
        exact mem_foldl_setAdd_of_mem_list _ _ fn hfn
      exact List.count_eq_one_of_mem hq' hmem
    · exact enqueueAll_ran _ s

/-- Witness for C1 amended at a concrete cell: setting `1` over `0` with
subscribers `3,4` enqueues `3` exactly once. -/
theorem C1_refSet_amended_witness :
    ((refSet ⟨.num 0, ⟨[3, 4], []⟩⟩ Sched.init (.num 1)).2.queue).count 3 = 1 :=
  ((C1_refSet_amended ⟨.num 0, ⟨[3, 4], []⟩⟩ Sched.init (.num 1)
    (by decide)).2 (by decide)).2.2.1 3 (by decide)

/-- Claim C2, exhibited failure: an evaluator enqueued while a flush is
executing does NOT start a new batch.  Trace: enqueue evaluator `0` from
idle (this schedules a flush); the flush runs `0`, which enqueues `1`; the
`add` call happens while `_isUpdating` is still `true`, so nothing is
scheduled, and the flush's final `_isUpdating = false` re-arms nothing.
The resulting reachable state has a non-empty queue (`[1]`), no scheduled
animation frame, and no flush in progress — evaluator `1` was not run in
the flush and will never run unless some unrelated later `add` occurs,
contradicting the claim (and the code's own comment that early queue
clearing lets new notifications start a fresh batch without stalling). -/
theorem C2_enqueue_during_flush_stalls :
    Reach (fun _ => [1]) ((Sched.add Sched.init true 0).flush (fun _ => [1])) ∧
    ((Sched.add Sched.init true 0).flush (fun _ => [1])).queue = [1] ∧
    ((Sched.add Sched.init true 0).flush (fun _ => [1])).rafPending = false ∧
    ((Sched.add Sched.init true 0).flush (fun _ => [1])).isUpdating = false ∧
    ((Sched.add Sched.init true 0).flush (fun _ => [1])).ran = [0] := by
  refine ⟨Reach.flush _ (Reach.add _ 0 Reach.init) (by decide),
    by decide, by decide, by decide, by decide⟩

/-- Claim C3, exhibited failure: `_processElement` sets `el.__processed`
but its guard reads `el["__processedcessed"]`, a misspelling no line of the
repository ever assigns; hence a second call on an already-processed node
runs a full second processing pass instead of being a no-op. -/
theorem C3_processElement_reprocesses :
    (processElement freshElem).flags.processed = true ∧
    (processElement (processElement freshElem)).passes = 2 ∧
    processElement (processElement freshElem) ≠ processElement freshElem := by
  decide

/-- Claim C4, exhibited failure: wrapping a fresh raw object returns its
proxy and — because `Object.defineProperty(proxy, "__isReactiveProxy", ...)`
forwards through the absent `defineProperty` trap onto the raw target —
marks the *raw object* as a proxy; so the second `reactive(x)` on the same
raw object takes the `target.__isReactiveProxy` early return and yields the
raw object itself, not the cached wrapper: `wrap(x) === wrap(x)` fails.
(Wrapping the proxy itself does return the same proxy.) -/
theorem C4_wrap_not_idempotent :
    reactiveFn freshWrapState .raw = some (⟨true, true, true⟩, .proxy) ∧
    reactiveFn ⟨true, true, true⟩ .raw = some (⟨true, true, true⟩, .raw) ∧
    RVal.raw ≠ RVal.proxy ∧
    reactiveFn ⟨true, true, true⟩ .proxy = some (⟨true, true, true⟩, .proxy) := by
  decide

/-- Claim C9 counterexample: registering a non-callable directive handler
is NOT logged-and-degraded — `_registerDirective` throws an `Error` to its
caller. -/
theorem C9_register_throws_counterexample :
    registerDirective [] "my-dir" false 0 =
      Except.error "directive handler must be a function: my-dir" := rfl

/-- Claim C9 amended: wrapping an unsupported type is logged and degrades
safely (the input is returned unchanged, no exception), but registering a
non-callable directive handler throws an `Error` at registration time; a
callable handler is stored normally. -/
theorem C9_construction_errors_amended (d : List (String × Nat)) (n : String)
    (h : Nat) (s : WrapState) :
    registerDirective d n false h =
      Except.error ("directive handler must be a function: " ++ n) ∧
    registerDirective d n true h = Except.ok (mapSet d n h) ∧
    reactiveFn s .nonObj = some (s, .nonObj) :=
  ⟨rfl, rfl, rfl⟩

/-- Claim C10: for each internal marker property (`__isReactive`, `__raw`,
`__isReactiveProxy`), the proxy `set` trap leaves the state untouched (no
write, no notification) and reports success, and the `deleteProperty` trap
leaves the state untouched and reports failure. -/
theorem C10_marker_props_protected (s : RecState) (v : JSVal) :
    setTrap s "__isReactive" v = (s, true) ∧
    setTrap s "__raw" v = (s, true) ∧
    setTrap s "__isReactiveProxy" v = (s, true) ∧
    deleteTrap s "__isReactive" = (s, false) ∧
    deleteTrap s "__raw" = (s, false) ∧
    deleteTrap s "__isReactiveProxy" = (s, false) := by
  refine ⟨?_, ?_, ?_, ?_, ?_, ?_⟩ <;> simp [setTrap, deleteTrap, markerProps]

/-! ## C6: array-mutator notification coalescing -/

theorem storedVal_not_raw (v : JSVal) :
    (if v.isObjectLike then wrapVal v else v).isRawObj = false := by
  cases v <;> simp [JSVal.isObjectLike, wrapVal, JSVal.isRawObj]

theorem listSetPad_length (l : List JSVal) (i : Nat) (v : JSVal) :
    (listSetPad l i v).length = max l.length (i + 1) := by
  unfold listSetPad
  by_cases h : i < l.length
  · rw [if_pos h]
    simp
    omega
  · rw [if_neg h]
    simp
    omega

theorem mem_listSetPad (l : List JSVal) (i : Nat) (w x : JSVal)
    (h : x ∈ listSetPad l i w) : x ∈ l ∨ x = w ∨ x = JSVal.undef := by
  unfold listSetPad at h
  by_cases hi : i < l.length
  · rw [if_pos hi] at h
    rcases List.mem_or_eq_of_mem_set h with h' | h'
    · exact Or.inl h'
    · exact Or.inr (Or.inl h')
  · rw [if_neg hi] at h
    rcases List.mem_append.mp h with h' | h'
    · rcases List.mem_append.mp h' with h'' | h''
      · exact Or.inl h''
      · exact Or.inr (Or.inr (List.eq_of_mem_replicate h''))
    · rw [List.mem_singleton] at h'
      exact Or.inr (Or.inl h')

theorem arraySetIdx_disabled (s : ArrState) (i : Nat) (v : JSVal)
    (hd : s.disabled = true) :
    (arraySetIdx s i v).disabled = true ∧
    (arraySetIdx s i v).log = s.log ∧
    (arraySetIdx s i v).items.length ≤ max s.items.length (i + 1) ∧
    ((∀ x ∈ s.items, x.isRawObj = false) →
      ∀ x ∈ (arraySetIdx s i v).items, x.isRawObj = false) := by
  unfold arraySetIdx
  by_cases he : nanSafeEq (s.items.getD i JSVal.undef) v = true
  · rw [if_pos he]
    exact ⟨hd, rfl, Nat.le_max_left _ _, fun h => h⟩
  · rw [if_neg he]
    refine ⟨?_, ?_, ?_, ?_⟩
    · simp [hd]
    · simp [hd]
    · simp [hd, listSetPad_length]
    · intro h x hx
      simp only [hd, Bool.not_true, Bool.false_eq_true, if_false] at hx
      rcases mem_listSetPad _ _ _ _ hx with h' | h' | h'
      · exact h x h'
      · rw [h']
        exact storedVal_not_raw v
      · rw [h']
        rfl

theorem arraySetLen_no_shrink (s : ArrState) (t : Nat)
    (hd : s.disabled = true) (h : s.items.length ≤ t) :
    (arraySetLen s t).disabled = true ∧
    (arraySetLen s t).log = s.log ∧
    ((∀ x ∈ s.items, x.isRawObj = false) →
      ∀ x ∈ (arraySetLen s t).items, x.isRawObj = false) := by
  unfold arraySetLen
  by_cases he : t = s.items.length
  · rw [if_pos he]
    exact ⟨hd, rfl, fun hr => hr⟩
  · rw [if_neg he]
    have hlt : ¬ t < s.items.length := by omega
    refine ⟨?_, ?_, ?_⟩
    · simp [hlt, hd]
    · simp [hlt, hd]
    · intro hr x hx
      simp only [hlt, if_false, hd, Bool.not_true, Bool.false_eq_true] at hx
      by_cases hle : t ≤ s.items.length
      · rw [if_pos hle] at hx
        exact hr x (List.mem_of_mem_take hx)
      · rw [if_neg hle] at hx
        rcases List.mem_append.mp hx with h' | h'
        · exact hr x h'
        · rw [List.eq_of_mem_replicate h']
          rfl

theorem pushWrites_fold (args : List JSVal) (base : Nat) (s : ArrState)
    (hd : s.disabled = true) (hlen : s.items.length ≤ base) :
    ((pushWrites base args).foldl applyArrOp s).disabled = true ∧
    ((pushWrites base args).foldl applyArrOp s).log = s.log ∧
    ((pushWrites base args).foldl applyArrOp s).items.length ≤ base + args.length ∧
    ((∀ x ∈ s.items, x.isRawObj = false) →
      ∀ x ∈ ((pushWrites base args).foldl applyArrOp s).items, x.isRawObj = false) := by
  induction args generalizing base s with
  | nil => exact ⟨hd, rfl, by simpa using hlen, fun h => h⟩
  | cons v rest ih =>
    simp only [pushWrites, List.foldl_cons, applyArrOp]
    obtain ⟨h1, h2, h3, h4⟩ := arraySetIdx_disabled s base v hd
    have hlen1 : (arraySetIdx s base v).items.length ≤ base + 1 := by
      calc (arraySetIdx s base v).items.length ≤ max s.items.length (base + 1) := h3
        _ ≤ base + 1 := by omega
    obtain ⟨g1, g2, g3, g4⟩ := ih (base + 1) (arraySetIdx s base v) h1 hlen1
    refine ⟨g1, g2.trans h2, ?_, fun hr => g4 (h4 hr)⟩
    simp only [List.length_cons]
    omega

/-- Claim C6 counterexample: `pop` on a two-element observable array.  The
length-shrink branch of the set trap notifies the removed index
*unconditionally* — it is not guarded by `_notificationDisabled` — so the
intercepted call emits a per-element notification (`index:1`) in addition
to the coalesced `array:mutate`, contradicting "suppresses all per-element
notifications ... exactly one coalesced notification". -/
theorem C6_pop_leaks_index_notification_counterexample :
    (popOp ⟨[.num 1, .num 2], false, []⟩).log = ["index:1", "array:mutate"] ∧
    "index:1" ∈ (popOp ⟨[.num 1, .num 2], false, []⟩).log := by
  decide

/-- Claim C6 amended: for `push` (and any intercepted method whose internal
writes never shrink the length), all internal per-element notifications are
suppressed, newly introduced container elements are stored wrapped, and
exactly one coalesced `array:mutate` notification is emitted after the
operation; in particular appending 5 items in one call notifies once.  For
the shrinking methods (`pop`, `shift`, removing `splice`) the removed-index
notifications of the length-shrink branch additionally escape the
suppression flag (see the counterexample). -/
theorem interceptedRun_not_nested (s : ArrState) (ops : List ArrOp)
    (hd : s.disabled = false) :
    interceptedRun s ops =
      { items := (ops.foldl applyArrOp { s with disabled := true }).items,
        disabled := false,
        log := (ops.foldl applyArrOp { s with disabled := true }).log ++
          ["array:mutate"] } := by
  unfold interceptedRun
  simp [hd]

theorem C6_push_amended (s : ArrState) (args : List JSVal)
    (hd : s.disabled = false)
    (hraw : ∀ x ∈ s.items, x.isRawObj = false) :
    (pushOp s args).log = s.log ++ ["array:mutate"] ∧
    (pushOp s args).disabled = false ∧
    (∀ x ∈ (pushOp s args).items, x.isRawObj = false) := by
  unfold pushOp
  rw [interceptedRun_not_nested s (pushOps s.items.length args) hd]
  unfold pushOps
  rw [List.foldl_append]
  obtain ⟨h1, h2, h3, h4⟩ :=
    pushWrites_fold args s.items.length { s with disabled := true } rfl (by simp)
  obtain ⟨g1, g2, g3⟩ :=
    arraySetLen_no_shrink ((pushWrites s.items.length args).foldl applyArrOp
      { s with disabled := true }) (s.items.length + args.length) h1 h3
  simp only [List.foldl_cons, List.foldl_nil]
  refine ⟨?_, ?_, ?_⟩
  · show (arraySetLen _ _).log ++ ["array:mutate"] = s.log ++ ["array:mutate"]
    rw [g2, h2]
  · trivial
  · intro x hx
    exact g3 (h4 (by simpa using hraw)) x hx

/-- Witness for C6 amended: pushing five numbers onto an empty observable
array produces exactly one notification, the coalesced `array:mutate`. -/
theorem C6_push_amended_witness :
    (pushOp ⟨[], false, []⟩ [.num 1, .num 2, .num 3, .num 4, .num 5]).log =
      ["array:mutate"] := by
  have h := (C6_push_amended ⟨[], false, []⟩ [.num 1, .num 2, .num 3, .num 4, .num 5]
    rfl (by simp)).1
  simpa using h

/-! ## C8: expression-evaluator error recovery -/

/-- Claim C8 counterexample: `parse` reassigns its `expr` binding to the
delimiter-stripped, trimmed text *before* evaluating, and the catch path
returns that binding — so on failure for a delimiter-wrapped input the
returned text is the stripped inner expression, not the original text
verbatim. -/
theorem C8_parse_returns_stripped_text_counterexample :
    ExpressionParser.parse (fun _ => .error ()) "\x7b\x7bx\x7d\x7d" =
      ParseOut.txt "x" ∧
    "x" ≠ "\x7b\x7bx\x7d\x7d" := by
  refine ⟨rfl, ?_⟩
  decide

/-- Claim C8 amended: on any evaluation failure `parse` logs and returns
the expression text after interpolation-delimiter stripping and trimming —
which is the input verbatim whenever the input is not delimiter-wrapped —
and never propagates the error; consequently an interpolation whose inner
expression fails to evaluate (e.g. references an undefined identifier)
renders the inner expression's source text, not an empty string and not a
thrown error. -/
theorem C8_parse_error_recovery_amended (evalFn : String → Except Unit EvalRes)
    (expr : String) (hfail : evalFn (stripDelims expr) = .error ()) :
    ExpressionParser.parse evalFn expr = ParseOut.txt (stripDelims expr) ∧
    (delimWrapped expr = false → stripDelims expr = expr) ∧
    (∀ inner : String, evalFn (stripDelims (jsTrim inner)) = .error () →
      ExpressionParser.parseText evalFn [ExpressionParser.TextSeg.interp inner] =
        stripDelims (jsTrim inner)) := by
  refine ⟨?_, ?_, ?_⟩
  · simp only [ExpressionParser.parse, hfail]
  · intro h
    unfold stripDelims
    rw [h]
    rfl
  · intro inner hinner
    show "" ++ ExpressionParser.outToString (ExpressionParser.parse evalFn (jsTrim inner)) = _
    simp only [ExpressionParser.parse, hinner, ExpressionParser.outToString]
    simp

/-- Witness for C8 amended: with an always-failing evaluator, parsing the
interpolation text `{{ n }}` yields the literal inner source `n`. -/
theorem C8_parse_error_recovery_amended_witness :
    ExpressionParser.parse (fun _ => .error ()) "\x7b\x7b n \x7d\x7d" =
      ParseOut.txt "n" := by
  have h := (C8_parse_error_recovery_amended (fun _ => .error ())
    "\x7b\x7b n \x7d\x7d" rfl).1
  rw [show stripDelims "\x7b\x7b n \x7d\x7d" = "n" from rfl] at h
  exact h

/-! ## C7: map and key-range lemmas -/

theorem mapFind_eq_none_iff {κ α : Type} [DecidableEq κ] (m : List (κ × α)) (k : κ) :
    mapFind m k = none ↔ k ∉ m.map Prod.fst := by
  induction m with
  | nil => simp [mapFind]
  | cons p rest ih =>
    obtain ⟨a, b⟩ := p
    rw [show mapFind ((a, b) :: rest) k = if a = k then some b else mapFind rest k from rfl]
    by_cases hk : a = k
    · subst hk
      simp
    · rw [if_neg hk]
      simp [ih, Ne.symm hk]

theorem mapFind_some_mem_keys {κ α : Type} [DecidableEq κ] (m : List (κ × α)) (k : κ)
    (v : α) (h : mapFind m k = some v) : k ∈ m.map Prod.fst := by
  by_contra hc
  rw [← mapFind_eq_none_iff] at hc
  rw [h] at hc
  exact Option.noConfusion hc

theorem mapSet_map_fst_of_mem {κ α : Type} [DecidableEq κ] (m : List (κ × α)) (k : κ)
    (v : α) (h : k ∈ m.map Prod.fst) : (mapSet m k v).map Prod.fst = m.map Prod.fst := by
  induction m with
  | nil => simp at h
  | cons p rest ih =>
    obtain ⟨a, b⟩ := p
    rw [show mapSet ((a, b) :: rest) k v =
      if a = k then (a, v) :: rest else (a, b) :: mapSet rest k v from rfl]
    by_cases hk : a = k
    · rw [if_pos hk]
      simp
    · rw [if_neg hk]
      have h' : k ∈ rest.map Prod.fst := by
        rw [List.map_cons] at h
        rcases List.mem_cons.mp h with he | hm
        · exact absurd he.symm hk
        · exact hm
      simp only [List.map_cons]
      rw [ih h']

theorem mapFind_mapSet_self {κ α : Type} [DecidableEq κ] (m : List (κ × α)) (k : κ)
    (v : α) (h : k ∈ m.map Prod.fst) : mapFind (mapSet m k v) k = some v := by
  induction m with
  | nil => simp at h
  | cons p rest ih =>
    obtain ⟨a, b⟩ := p
    rw [show mapSet ((a, b) :: rest) k v =
      if a = k then (a, v) :: rest else (a, b) :: mapSet rest k v from rfl]
    by_cases hk : a = k
    · rw [if_pos hk]
      rw [show mapFind ((a, v) :: rest) k = if a = k then some v else mapFind rest k from rfl,
        if_pos hk]
    · rw [if_neg hk]
      rw [show mapFind ((a, b) :: mapSet rest k v) k =
        if a = k then some b else mapFind (mapSet rest k v) k from rfl, if_neg hk]
      have h' : k ∈ rest.map Prod.fst := by
        rw [List.map_cons] at h
        rcases List.mem_cons.mp h with he | hm
        · exact absurd he.symm hk
        · exact hm
      exact ih h'

theorem mapFind_mapSet_ne {κ α : Type} [DecidableEq κ] (m : List (κ × α)) (j k : κ)
    (v : α) (h : j ≠ k) : mapFind (mapSet m j v) k = mapFind m k := by
  induction m with
  | nil =>
    rw [show mapSet ([] : List (κ × α)) j v = [(j, v)] from rfl]
    rw [show mapFind [(j, v)] k = if j = k then some v else mapFind ([] : List (κ × α)) k from rfl]
    rw [if_neg h]
  | cons p rest ih =>
    obtain ⟨a, b⟩ := p
    rw [show mapSet ((a, b) :: rest) j v =
      if a = j then (a, v) :: rest else (a, b) :: mapSet rest j v from rfl]
    by_cases hj : a = j
    · rw [if_pos hj]
      rw [show mapFind ((a, v) :: rest) k = if a = k then some v else mapFind rest k from rfl]
      rw [show mapFind ((a, b) :: rest) k = if a = k then some b else mapFind rest k from rfl]
      have : a ≠ k := by rw [hj]; exact h
      rw [if_neg this, if_neg this]
    · rw [if_neg hj]
      rw [show mapFind ((a, b) :: mapSet rest j v) k =
        if a = k then some b else mapFind (mapSet rest j v) k from rfl]
      rw [show mapFind ((a, b) :: rest) k = if a = k then some b else mapFind rest k from rfl]
      by_cases hk : a = k
      · rw [if_pos hk, if_pos hk]
      · rw [if_neg hk, if_neg hk]
        exact ih

theorem mapFind_append_sng_ne {κ α : Type} [DecidableEq κ] (m : List (κ × α)) (j k : κ)
    (e : α) (h : j ≠ k) : mapFind (m ++ [(j, e)]) k = mapFind m k := by
  induction m with
  | nil =>
    rw [List.nil_append]
    rw [show mapFind [(j, e)] k = if j = k then some e else mapFind ([] : List (κ × α)) k from rfl]
    rw [if_neg h]
  | cons p rest ih =>
    obtain ⟨a, b⟩ := p
    rw [List.cons_append]
    rw [show mapFind ((a, b) :: (rest ++ [(j, e)])) k =
      if a = k then some b else mapFind (rest ++ [(j, e)]) k from rfl]
    rw [show mapFind ((a, b) :: rest) k = if a = k then some b else mapFind rest k from rfl]
    by_cases hk : a = k
    · rw [if_pos hk, if_pos hk]
    · rw [if_neg hk, if_neg hk]
      exact ih

theorem mapFind_filter_of_pred {κ α : Type} [DecidableEq κ] (m : List (κ × α))
    (q : κ → Bool) (k : κ) (hq : q k = true) :
    mapFind (m.filter (fun p => q p.1)) k = mapFind m k := by
  induction m with
  | nil => rfl
  | cons p rest ih =>
    obtain ⟨a, b⟩ := p
    rw [show mapFind ((a, b) :: rest) k = if a = k then some b else mapFind rest k from rfl]
    by_cases hk : a = k
    · subst hk
      rw [List.filter_cons_of_pos (by simpa using hq)]
      rw [show mapFind ((a, b) :: rest.filter (fun p => q p.1)) a =
        if a = a then some b else mapFind (rest.filter (fun p => q p.1)) a from rfl]
      rw [if_pos rfl, if_pos rfl]
    · by_cases hqa : q a = true
      · rw [List.filter_cons_of_pos (by simpa using hqa)]
        rw [show mapFind ((a, b) :: rest.filter (fun p => q p.1)) k =
          if a = k then some b else mapFind (rest.filter (fun p => q p.1)) k from rfl]
        rw [if_neg hk, if_neg hk]
        exact ih
      · rw [List.filter_cons_of_neg (by simpa using hqa)]
        rw [if_neg hk]
        exact ih

theorem map_fst_filter_key {κ α : Type} [DecidableEq κ] (m : List (κ × α))
    (q : κ → Bool) :
    (m.filter (fun p => q p.1)).map Prod.fst = (m.map Prod.fst).filter q := by
  induction m with
  | nil => rfl
  | cons p rest ih =>
    obtain ⟨a, b⟩ := p
    by_cases hqa : q a = true
    · rw [List.filter_cons_of_pos (by simpa using hqa)]
      simp only [List.map_cons]
      rw [List.filter_cons_of_pos (by simpa using hqa), ih]
    · rw [List.filter_cons_of_neg (by simpa using hqa)]
      simp only [List.map_cons]
      rw [List.filter_cons_of_neg (by simpa using hqa), ih]

theorem kr_zero : kr 0 = [] := rfl

theorem kr_succ (n : Nat) : kr (n + 1) = kr n ++ [n + 1] := by
  unfold kr
  rw [List.range_succ, List.map_append]
  rfl

theorem mem_kr (k n : Nat) : k ∈ kr n ↔ 1 ≤ k ∧ k ≤ n := by
  unfold kr
  simp only [List.mem_map, List.mem_range]
  constructor
  · rintro ⟨a, ha, rfl⟩
    omega
  · intro h
    exact ⟨k - 1, by omega, by omega⟩

theorem kr_nodup (n : Nat) : (kr n).Nodup :=
  List.Nodup.map (fun a b h => by omega) (List.nodup_range n)

theorem processKeys_find_of_not_mem (t : Nat) (keys : List Nat) :
    ∀ (cache : List (Nat × ForEntry)) (fresh k : Nat), k ∉ keys →
      mapFind (processKeys t keys cache fresh).1 k = mapFind cache k := by
  induction keys with
  | nil => intro cache fresh k _; rfl
  | cons j ks ih =>
    intro cache fresh k hk
    have hkj : k ≠ j := fun he => hk (he ▸ List.mem_cons_self j ks)
    have hkks : k ∉ ks := fun hm => hk (List.mem_cons_of_mem _ hm)
    cases hfind : mapFind cache j with
    | some e =>
      simp only [processKeys, hfind]
      rw [ih _ _ _ hkks]
      exact mapFind_mapSet_ne _ _ _ _ (Ne.symm hkj)
    | none =>
      simp only [processKeys, hfind]
      rw [ih _ _ _ hkks]
      exact mapFind_append_sng_ne _ _ _ _ (Ne.symm hkj)

theorem processKeys_reuse (t : Nat) (keys : List Nat) :
    keys.Nodup → ∀ (cache : List (Nat × ForEntry)) (fresh k : Nat) (e : ForEntry),
      mapFind cache k = some e → k ∈ keys →
      mapFind (processKeys t keys cache fresh).1 k = some ⟨e.nodes, e.scopeId, k⟩ ∧
      e.nodes.Sublist (processKeys t keys cache fresh).2.2 := by
  induction keys with
  | nil => intro _ cache fresh k e _ hk; simp at hk
  | cons j ks ih =>
    intro hnd cache fresh k e hfind hk
    obtain ⟨hjks, hksnd⟩ := List.nodup_cons.mp hnd
    rcases List.mem_cons.mp hk with he | hm
    · subst he
      simp only [processKeys, hfind]
      have hkks : k ∉ ks := hjks
      constructor
      · rw [processKeys_find_of_not_mem t ks _ _ _ hkks]
        exact mapFind_mapSet_self _ _ _ (mapFind_some_mem_keys _ _ _ hfind)
      · exact List.sublist_append_left _ _
    · have hkj : k ≠ j := by
        intro he
        exact hjks (he ▸ hm)
      cases hfj : mapFind cache j with
      | some ej =>
        simp only [processKeys, hfj]
        have hfind' : mapFind (mapSet cache j ⟨ej.nodes, ej.scopeId, j⟩) k = some e := by
          rw [mapFind_mapSet_ne _ _ _ _ (Ne.symm hkj)]
          exact hfind
        obtain ⟨h1, h2⟩ := ih hksnd _ fresh k e hfind' hm
        exact ⟨h1, h2.trans (List.sublist_append_right _ _)⟩
      | none =>
        simp only [processKeys, hfj]
        have hfind' : mapFind (cache ++
            [(j, ⟨(List.range t).map (fresh + ·), fresh + t, j⟩)]) k = some e := by
          rw [mapFind_append_sng_ne _ _ _ _ (Ne.symm hkj)]
          exact hfind
        obtain ⟨h1, h2⟩ := ih hksnd _ (fresh + t + 1) k e hfind' hm
        exact ⟨h1, h2.trans (List.sublist_append_right _ _)⟩

theorem processKeys_keys (t : Nat) (keys : List Nat) :
    keys.Nodup → ∀ (cache : List (Nat × ForEntry)) (fresh : Nat),
      (processKeys t keys cache fresh).1.map Prod.fst =
        cache.map Prod.fst ++
          keys.filter (fun k => decide (k ∉ cache.map Prod.fst)) := by
  induction keys with
  | nil => intro _ cache fresh; simp [processKeys]
  | cons j ks ih =>
    intro hnd cache fresh
    obtain ⟨hjks, hksnd⟩ := List.nodup_cons.mp hnd
    cases hfj : mapFind cache j with
    | some ej =>
      simp only [processKeys, hfj]
      have hjmem : j ∈ cache.map Prod.fst := mapFind_some_mem_keys _ _ _ hfj
      rw [ih hksnd _ fresh, mapSet_map_fst_of_mem _ _ _ hjmem]
      rw [List.filter_cons_of_neg (by simpa using hjmem)]
    | none =>
      simp only [processKeys, hfj]
      have hjmem : j ∉ cache.map Prod.fst := (mapFind_eq_none_iff _ _).mp hfj
      rw [ih hksnd _ (fresh + t + 1)]
      rw [List.filter_cons_of_pos (by simpa using hjmem)]
      have hfc : ks.filter (fun k =>
          decide (k ∉ (cache ++
            [(j, (⟨(List.range t).map (fresh + ·), fresh + t, j⟩ : ForEntry))]).map
            Prod.fst)) = ks.filter (fun k => decide (k ∉ cache.map Prod.fst)) := by
        apply List.filter_congr
        intro x hx
        have hxj : x ≠ j := by
          intro he
          exact hjks (he ▸ hx)
        simp [List.mem_append, hxj]
      rw [hfc]
      simp [List.map_append]

theorem kr_filter_le (M N : Nat) :
    (kr M).filter (fun k => decide (k ≤ N)) = kr (min M N) := by
  induction M with
  | zero => simp [kr_zero, Nat.zero_min, kr]
  | succ M ih =>
    rw [kr_succ, List.filter_append, ih]
    by_cases h : M + 1 ≤ N
    · have h1 : min (M + 1) N = M + 1 := by omega
      have h2 : min M N = M := by omega
      have hf : List.filter (fun k => decide (k ≤ N)) [M + 1] = [M + 1] := by simp [h]
      rw [h1, h2, hf, ← kr_succ]
    · have h1 : min (M + 1) N = min M N := by omega
      have hf : List.filter (fun k => decide (k ≤ N)) [M + 1] = [] := by simp; omega
      rw [h1, hf, List.append_nil]

theorem kr_min_append_filter_gt (M N : Nat) :
    kr (min M N) ++ (kr N).filter (fun k => decide (¬ k ≤ M)) = kr N := by
  induction N with
  | zero => simp [kr_zero, Nat.min_zero, kr]
  | succ N ih =>
    rw [show kr (N + 1) = kr N ++ [N + 1] from kr_succ N, List.filter_append]
    by_cases h : N + 1 ≤ M
    · have h1 : min M (N + 1) = N + 1 := by omega
      have hf1 : (kr N).filter (fun k => decide (¬ k ≤ M)) = [] := by
        rw [List.filter_eq_nil_iff]
        intro a ha
        have := (mem_kr a N).mp ha
        simp
        omega
      have hf2 : List.filter (fun k => decide (¬ k ≤ M)) [N + 1] = [] := by
        simp
        omega
      rw [h1, hf1, hf2, kr_succ]
      simp
    · have h1 : min M (N + 1) = min M N := by omega
      have hf2 : List.filter (fun k => decide (¬ k ≤ M)) [N + 1] = [N + 1] := by
        simp
        omega
      rw [h1, hf2, ← List.append_assoc, ih]

theorem kr_filter_keep (M N : Nat) :
    (kr M).filter (fun k => forKeep (kr M) (kr N) k) =
      (kr M).filter (fun k => decide (k ≤ N)) := by
  apply List.filter_congr
  intro x hx
  have hx' := (mem_kr x M).mp hx
  by_cases hc : x ∈ kr N
  · have hcle : x ≤ N := ((mem_kr x N).mp hc).2
    simp [forKeep, hx, hc, hcle]
  · have hcle : ¬ x ≤ N := fun hle => hc ((mem_kr x N).mpr ⟨hx'.1, hle⟩)
    simp [forKeep, hx, hc, hcle]

theorem kr_new_filter_keep (M N : Nat) :
    ((kr N).filter (fun k => decide (k ∉ kr M))).filter
        (fun k => forKeep (kr M) (kr N) k) =
      (kr N).filter (fun k => decide (¬ k ≤ M)) := by
  have h1 : ((kr N).filter (fun k => decide (k ∉ kr M))).filter
      (fun k => forKeep (kr M) (kr N) k) =
      (kr N).filter (fun k => decide (k ∉ kr M)) := by
    rw [List.filter_eq_self]
    intro a ha
    obtain ⟨ham, hanotM⟩ := List.mem_filter.mp ha
    have : a ∉ kr M := by simpa using hanotM
    simp [forKeep, this]
  rw [h1]
  apply List.filter_congr
  intro x hx
  have hx' := (mem_kr x N).mp hx
  by_cases hc : x ≤ M
  · have : x ∈ kr M := (mem_kr x M).mpr ⟨hx'.1, hc⟩
    simp [this, hc]
  · have : x ∉ kr M := fun hm => hc ((mem_kr x M).mp hm).2
    simp [this, hc]

theorem forInit_wf (t : Nat) : (forInit t).wf := ⟨0, rfl, rfl⟩

theorem forUpdate_cache_eq (s : ForState) (parsed : JSVal) :
    (forUpdate s parsed).1.cache =
      ((processKeys s.templateSize (kr (forCount parsed)) s.cache s.fresh).1).filter
        (fun p => forKeep s.prevKeys (kr (forCount parsed)) p.1) := rfl

theorem forUpdate_prevKeys_eq (s : ForState) (parsed : JSVal) :
    (forUpdate s parsed).1.prevKeys = kr (forCount parsed) := rfl

theorem forUpdate_frag_eq (s : ForState) (parsed : JSVal) :
    (forUpdate s parsed).2 =
      (processKeys s.templateSize (kr (forCount parsed)) s.cache s.fresh).2.2 := rfl

/-- Claim C7: on every `r-for` update with evaluated count value `parsed`,
where `N = Math.max(0, parseInt(parsed, 10) || 0)`: the cache key space is
exactly the list `1..N` (so keys greater than `N` are dropped); a `NaN`
integer-parse yields `N = 0` and otherwise `N` is the parsed integer
clamped to non-negative; every cached key `k ≤ N` is reused in place — the
entry keeps the same node identities and the same item-scope identity, only
the bound index field is (re)assigned to `k` — and its cached nodes are
moved (same identities, as a sublist) into the rebuilt fragment; and the
state stays well-formed, so the guarantee holds across successive updates. -/
theorem C7_rfor_reconciliation (s : ForState) (parsed : JSVal) (hwf : s.wf) :
    ((forUpdate s parsed).1.cache.map Prod.fst = kr (forCount parsed)) ∧
    ((forUpdate s parsed).1.prevKeys = kr (forCount parsed)) ∧
    (jsParseInt parsed = none → forCount parsed = 0) ∧
    (∀ n : Int, jsParseInt parsed = some n → forCount parsed = n.toNat) ∧
    (∀ (k : Nat) (e : ForEntry), mapFind s.cache k = some e →
      k ∈ kr (forCount parsed) →
      mapFind (forUpdate s parsed).1.cache k = some ⟨e.nodes, e.scopeId, k⟩ ∧
      e.nodes.Sublist (forUpdate s parsed).2) ∧
    (∀ k : Nat, k ∉ kr (forCount parsed) →
      mapFind (forUpdate s parsed).1.cache k = none) ∧
    (forUpdate s parsed).1.wf := by
  obtain ⟨M, hprev, hkeys⟩ := hwf
  have hmain : (forUpdate s parsed).1.cache.map Prod.fst = kr (forCount parsed) := by
    rw [forUpdate_cache_eq, map_fst_filter_key,
      processKeys_keys s.templateSize (kr (forCount parsed)) (kr_nodup _) s.cache s.fresh,
      hkeys, hprev, List.filter_append, kr_filter_keep, kr_filter_le,
      kr_new_filter_keep, kr_min_append_filter_gt]
  refine ⟨hmain, forUpdate_prevKeys_eq s parsed, ?_, ?_, ?_, ?_, ?_⟩
  · intro h
    simp [forCount, h]
  · intro n h
    simp [forCount, h]
  · intro k e hfind hk
    obtain ⟨h1, h2⟩ := processKeys_reuse s.templateSize (kr (forCount parsed))
      (kr_nodup _) s.cache s.fresh k e hfind hk
    constructor
    · rw [forUpdate_cache_eq]
      rw [mapFind_filter_of_pred _ _ _ (by simp [forKeep, hk])]
      exact h1
    · rw [forUpdate_frag_eq]
      exact h2
  · intro k hk
    rw [mapFind_eq_none_iff, hmain]
    exact hk
  · exact ⟨forCount parsed, forUpdate_prevKeys_eq s parsed, hmain⟩

/-- Witness for C7 at the spec's own test: template size 1, `count = 3`
then `count = 2` — cache key `3` is dropped by the second update. -/
theorem C7_rfor_reconciliation_witness :
    mapFind ((forUpdate (forUpdate (forInit 1) (.num 3)).1 (.num 2)).1).cache 3 =
      none :=
  (C7_rfor_reconciliation (forUpdate (forInit 1) (.num 3)).1 (.num 2)
    ⟨3, by decide, by decide⟩).2.2.2.2.2.1 3 (by decide)

end Rex
